import Mathlib

/-!
Verification of the nymph backend (src/main.py): the URL icon guesser,
username normalization and creation, and the habit streak engine
described in the specification.
-/

namespace Nymph

/-- Boolean test that the list `hay` starts with the list `needle`
(model of the Python method startswith on strings). -/
def startsWithL : List Char → List Char → Bool
  | _, [] => true
  | [], _ :: _ => false
  | h :: hs, n :: ns => (h == n) && startsWithL hs ns

/-- Boolean substring containment: `needle` occurs contiguously inside `hay`
(model of the Python operator `in` on strings). -/
def containsL : List Char → List Char → Bool
  | [], needle => startsWithL [] needle
  | h :: hs, needle => startsWithL (h :: hs) needle || containsL hs needle

/-- The lowercased character list of a possibly absent URL: models
`(url or "").lower()` from src/main.py line 38. -/
def lowered (url : Option String) : List Char :=
  ((url.getD "").toList).map Char.toLower

/-- Embedding of `guess_icon_from_url` (src/main.py lines 33-58): a chain of
substring tests on the lowercased URL, then a scheme test, else "link". -/
def guess_icon_from_url (url : Option String) : String :=
  if containsL (lowered url) ("github.com".toList) then "github"
  else if containsL (lowered url) ("youtube.com".toList)
      || containsL (lowered url) ("youtu.be".toList) then "youtube"
  else if containsL (lowered url) ("x.com".toList)
      || containsL (lowered url) ("twitter.com".toList) then "x"
  else if containsL (lowered url) ("instagram.com".toList) then "instagram"
  else if containsL (lowered url) ("tiktok.com".toList) then "tiktok"
  else if containsL (lowered url) ("twitch.tv".toList) then "twitch"
  else if containsL (lowered url) ("discord.gg".toList)
      || containsL (lowered url) ("discord.com".toList) then "discord"
  else if startsWithL (lowered url) ("http://".toList)
      || startsWithL (lowered url) ("https://".toList) then "website"
  else "link"

/-- True when the lowercased URL contains none of the ten domain substrings
tested by `guess_icon_from_url`. -/
def noDomainMatch (u : List Char) : Bool :=
  !(containsL u ("github.com".toList) || containsL u ("youtube.com".toList)
    || containsL u ("youtu.be".toList) || containsL u ("x.com".toList)
    || containsL u ("twitter.com".toList) || containsL u ("instagram.com".toList)
    || containsL u ("tiktok.com".toList) || containsL u ("twitch.tv".toList)
    || containsL u ("discord.gg".toList) || containsL u ("discord.com".toList))

/-- C8: `guess_icon_from_url` is total with range inside the nine icon keys;
it returns "github" whenever the lowercased input contains "github.com";
when no listed domain substring matches it returns "website" if the
lowercased input starts with a scheme and "link" otherwise. -/
theorem guess_icon_cases (url : Option String) :
    guess_icon_from_url url ∈
      (["github", "youtube", "x", "instagram", "tiktok", "twitch", "discord",
        "website", "link"] : List String)
    ∧ (containsL (lowered url) ("github.com".toList) = true →
        guess_icon_from_url url = "github")
    ∧ (noDomainMatch (lowered url) = true →
        (startsWithL (lowered url) ("http://".toList)
          || startsWithL (lowered url) ("https://".toList)) = true →
        guess_icon_from_url url = "website")
    ∧ (noDomainMatch (lowered url) = true →
        (startsWithL (lowered url) ("http://".toList)
          || startsWithL (lowered url) ("https://".toList)) = false →
        guess_icon_from_url url = "link") := by
  refine ⟨?_, ?_, ?_, ?_⟩
  · unfold guess_icon_from_url
    split_ifs <;> simp
  · intro hg
    unfold guess_icon_from_url
    simp_all
  · intro hnone hscheme
    simp only [noDomainMatch, Bool.not_eq_true', Bool.or_eq_false_iff] at hnone
    obtain ⟨⟨⟨⟨⟨⟨⟨⟨⟨h1, h2⟩, h3⟩, h4⟩, h5⟩, h6⟩, h7⟩, h8⟩, h9⟩, h10⟩ := hnone
    unfold guess_icon_from_url
    simp_all
  · intro hnone hscheme
    simp only [noDomainMatch, Bool.not_eq_true', Bool.or_eq_false_iff] at hnone
    obtain ⟨⟨⟨⟨⟨⟨⟨⟨⟨h1, h2⟩, h3⟩, h4⟩, h5⟩, h6⟩, h7⟩, h8⟩, h9⟩, h10⟩ := hnone
    unfold guess_icon_from_url
    simp_all

/-- C8 witness: the three interesting branches at concrete URLs. -/
theorem guess_icon_cases_witness :
    guess_icon_from_url (some "https://GitHub.com/u") = "github"
    ∧ guess_icon_from_url (some "https://example.org") = "website"
    ∧ guess_icon_from_url (some "hello world") = "link" :=
  ⟨(guess_icon_cases (some "https://GitHub.com/u")).2.1 (by decide),
   (guess_icon_cases (some "https://example.org")).2.2.1 (by decide) (by decide),
   (guess_icon_cases (some "hello world")).2.2.2 (by decide) (by decide)⟩

/-- List of whitespace characters stripped by the Python method strip
(the ASCII whitespace set). -/
def isPySpace (c : Char) : Bool :=
  c == ' ' || c == '\t' || c == '\n' || c == '\r' || c == '\x0b' || c == '\x0c'

/-- Model of the Python method strip with no argument: remove leading and
trailing whitespace. -/
def pyStrip (s : List Char) : List Char :=
  (((s.dropWhile isPySpace).reverse).dropWhile isPySpace).reverse

/-- The normalization `username.strip().lower()` applied by `create_user`
(src/main.py line 165) and `get_user_by_username` (src/main.py line 131). -/
def normUser (s : List Char) : List Char :=
  (pyStrip s).map Char.toLower

/-- A row of the users table (src/main.py lines 69-77). -/
structure UserRow where
  id : Nat
  username : List Char
  display_name : List Char
  bio : List Char
  created_at : List Char
deriving DecidableEq

/-- The users table: a list of rows; the sqlite UNIQUE constraint on
username is enforced in `create_user` below. -/
abbrev UsersTable := List UserRow

/-- Embedding of `create_user` (src/main.py lines 160-177): normalize the
username, insert unless the UNIQUE constraint fires (modelled as a scan of
existing usernames, the condition under which sqlite raises IntegrityError),
in which case return the error response and leave the table unchanged. -/
def create_user (db : UsersTable) (id : Nat)
    (username display_name bio created_at : List Char) :
    Except String (List Char) × UsersTable :=
  let clean := normUser username
  if db.any (fun r => r.username == clean) then
    (Except.error "Username already exists", db)
  else
    (Except.ok clean,
      db ++ [⟨id, clean, pyStrip display_name, pyStrip bio, created_at⟩])

/-- Embedding of `get_user_by_username` (src/main.py lines 125-133): the
query SELECT with WHERE username equal to the normalized argument, fetchone
modelled as the first matching row. -/
def get_user_by_username (db : UsersTable) (username : List Char) :
    Option UserRow :=
  db.find? (fun r => r.username == normUser username)

/-- C9: lookup is insensitive to case and surrounding whitespace: after
running `create_user` with username u1, `get_user_by_username` with any u2
normalizing to the same string finds a row carrying that normalized
username (whether the insert succeeded or the name already existed). -/
theorem create_then_get_normalized (db : UsersTable) (id : Nat)
    (u1 u2 dn bio ca : List Char) (hnorm : normUser u1 = normUser u2) :
    ∃ r : UserRow,
      get_user_by_username (create_user db id u1 dn bio ca).2 u2 = some r
      ∧ r.username = normUser u1 := by
  unfold create_user get_user_by_username
  by_cases hdup : db.any (fun r => r.username == normUser u1) = true
  · rw [if_pos hdup]
    rw [List.any_eq_true] at hdup
    obtain ⟨r, hr, hru⟩ := hdup
    rw [beq_iff_eq] at hru
    have hsome : (db.find? (fun r0 => r0.username == normUser u2)).isSome := by
      rw [List.find?_isSome]
      exact ⟨r, hr, by rw [beq_iff_eq, hru, hnorm]⟩
    obtain ⟨r0, hr0⟩ := Option.isSome_iff_exists.mp hsome
    refine ⟨r0, hr0, ?_⟩
    have hu0 := List.find?_some hr0
    rw [beq_iff_eq] at hu0
    rw [hu0, hnorm]
  · rw [if_neg hdup]
    have hnone : db.find? (fun r => r.username == normUser u2) = none := by
      rw [List.find?_eq_none]
      intro r hr hcon
      apply hdup
      rw [List.any_eq_true]
      exact ⟨r, hr, by rw [beq_iff_eq] at hcon ⊢; rw [hcon, hnorm]⟩
    refine ⟨⟨id, normUser u1, pyStrip dn, pyStrip bio, ca⟩, ?_, rfl⟩
    rw [List.find?_append, hnone]
    simp [hnorm]

/-- C9 witness: a user created as "  Alice " is found via "ALICE". -/
theorem create_then_get_normalized_witness :
    ∃ r : UserRow,
      get_user_by_username
        (create_user [] 1 ("  Alice ".toList) ("A".toList) ("".toList)
          ("t0".toList)).2 ("ALICE".toList) = some r
      ∧ r.username = normUser ("  Alice ".toList) :=
  create_then_get_normalized [] 1 ("  Alice ".toList) ("ALICE".toList)
    ("A".toList) ("".toList) ("t0".toList) (by decide)

/-- C10: when a row with the normalized username already exists,
`create_user` returns the duplicate-username error and the table is
returned unchanged: no new row and no modification of any row. -/
theorem create_user_duplicate_atomic (db : UsersTable) (id : Nat)
    (u dn bio ca : List Char) (r0 : UserRow) (hr0 : r0 ∈ db)
    (hname : r0.username = normUser u) :
    create_user db id u dn bio ca = (Except.error "Username already exists", db) := by
  unfold create_user
  have hdup : db.any (fun r => r.username == normUser u) = true := by
    rw [List.any_eq_true]
    exact ⟨r0, hr0, by rw [beq_iff_eq]; exact hname⟩
  simp only [hdup, if_true]

/-- C10 witness: inserting "bob" twice errors and keeps the one-row table. -/
theorem create_user_duplicate_atomic_witness :
    create_user [⟨1, "bob".toList, "B".toList, [], "t0".toList⟩] 2
      (" Bob ".toList) ("B2".toList) [] ("t1".toList)
      = (Except.error "Username already exists",
         [⟨1, "bob".toList, "B".toList, [], "t0".toList⟩]) :=
  create_user_duplicate_atomic _ 2 (" Bob ".toList) ("B2".toList) [] ("t1".toList)
    ⟨1, "bob".toList, "B".toList, [], "t0".toList⟩ (by decide) (by decide)

/-- Modelled from the spec: the streak engine of section 4.1 is absent from
src/ (the src endpoint `list_habits` only returns raw habit log rows), so its
input event type is taken from section 3: habit name, completed flag, and a
timestamp carrying a calendar day plus a time of day. Days are integers so
the walk can move backward freely. -/
structure HabitCompletionEvent where
  habit : String
  completed : Bool
  day : Int
  timeOfDay : Nat
deriving DecidableEq

/-- Modelled from the spec: step 2 of the algorithm extracts the calendar
day from the timestamp, discarding the time of day. -/
def dayOf (e : HabitCompletionEvent) : Int := e.day

/-- Modelled from the spec: the HabitDayRecord of section 3 for one habit,
the set of distinct calendar days with at least one true completion
(steps 1-3 of the algorithm: filter, bucket by day, deduplicate). -/
def creditedDays (events : List HabitCompletionEvent) (h : String) : Finset Int :=
  ((events.filter (fun e => e.completed && e.habit == h)).map dayOf).toFinset

/-- Modelled from the spec: the distinct habit names holding at least one
completed event, the key set of the engine output. -/
def habitNames (events : List HabitCompletionEvent) : List String :=
  ((events.filter (fun e => e.completed)).map (fun e => e.habit)).dedup

/-- Modelled from the spec: step 4, the anchor day of the backward walk:
today when today is credited, otherwise yesterday. -/
def anchor (s : Finset Int) (today : Int) : Int :=
  if today ∈ s then today else today - 1

/-- Modelled from the spec: step 5, walk backward from the anchor counting
consecutive credited days, stopping at the first missing day. Fuel bounds
the recursion; `streakOf` supplies fuel strictly larger than the walk can
consume. -/
def walk (s : Finset Int) (a : Int) : Nat → Nat
  | 0 => 0
  | fuel + 1 => if a ∈ s then walk s (a - 1) fuel + 1 else 0

/-- Modelled from the spec: the current streak of one habit at the given
evaluation date (steps 4-5 of the algorithm). -/
def streakOf (events : List HabitCompletionEvent) (today : Int) (h : String) : Nat :=
  walk (creditedDays events h) (anchor (creditedDays events h) today)
    ((creditedDays events h).card + 1)

/-- Modelled from the spec: the engine output, one (habit, streak) pair per
habit with at least one completed event (step 6 and section 3 StreakResult). -/
def streaks (events : List HabitCompletionEvent) (today : Int) :
    List (String × Nat) :=
  (habitNames events).map (fun h => (h, streakOf events today h))

lemma walk_succ (s : Finset Int) (a : Int) (fuel : Nat) :
    walk s a (fuel + 1) = if a ∈ s then walk s (a - 1) fuel + 1 else 0 := rfl

lemma walk_le (s : Finset Int) : ∀ fuel a, walk s a fuel ≤ fuel := by
  intro fuel
  induction fuel with
  | zero => intro a; rfl
  | succ f ih =>
    intro a
    unfold walk
    split
    · exact Nat.succ_le_succ (ih (a - 1))
    · exact Nat.zero_le _

lemma walk_spec_of_lt (s : Finset Int) :
    ∀ fuel a, walk s a fuel < fuel →
      (∀ k : Nat, k < walk s a fuel → a - (k : Int) ∈ s)
      ∧ a - (walk s a fuel : Int) ∉ s := by
  intro fuel
  induction fuel with
  | zero => intro a h; exact absurd h (Nat.not_lt_zero _)
  | succ f ih =>
    intro a hlt
    by_cases hm : a ∈ s
    · have hw : walk s a (f + 1) = walk s (a - 1) f + 1 := by
        rw [walk_succ, if_pos hm]
      rw [hw] at hlt ⊢
      have hlt2 : walk s (a - 1) f < f := Nat.lt_of_succ_lt_succ hlt
      obtain ⟨ih1, ih2⟩ := ih (a - 1) hlt2
      constructor
      · intro k hk
        cases k with
        | zero => simpa using hm
        | succ j =>
          have hj : j < walk s (a - 1) f := Nat.lt_of_succ_lt_succ hk
          have := ih1 j hj
          have heq : a - ((j : Int) + 1) = a - 1 - (j : Int) := by ring
          simpa [heq] using this
      · have heq : a - ((walk s (a - 1) f : Int) + 1)
            = a - 1 - (walk s (a - 1) f : Int) := by ring
        simpa [heq] using ih2
    · have hw : walk s a (f + 1) = 0 := by
        rw [walk_succ, if_neg hm]
      rw [hw]
      exact ⟨fun k hk => absurd hk (Nat.not_lt_zero _), by simpa using hm⟩

lemma walk_eq_fuel (s : Finset Int) :
    ∀ fuel a, walk s a fuel = fuel → ∀ k : Nat, k < fuel → a - (k : Int) ∈ s := by
  intro fuel
  induction fuel with
  | zero => intro a _ k hk; exact absurd hk (Nat.not_lt_zero _)
  | succ f ih =>
    intro a hw k hk
    by_cases hm : a ∈ s
    · have hw2 : walk s (a - 1) f + 1 = f + 1 := by
        rw [← hw, walk_succ, if_pos hm]
      have hw3 : walk s (a - 1) f = f := Nat.succ_injective hw2
      cases k with
      | zero => simpa using hm
      | succ j =>
        have hj : j < f := Nat.lt_of_succ_lt_succ hk
        have := ih (a - 1) hw3 j hj
        have heq : a - ((j : Int) + 1) = a - 1 - (j : Int) := by ring
        simpa [heq] using this
    · exfalso
      have : walk s a (f + 1) = 0 := by rw [walk_succ, if_neg hm]
      omega

lemma walk_lt_card (s : Finset Int) (a : Int) :
    walk s a (s.card + 1) < s.card + 1 := by
  rcases Nat.lt_or_ge (walk s a (s.card + 1)) (s.card + 1) with hlt | hge
  · exact hlt
  · exfalso
    have heq : walk s a (s.card + 1) = s.card + 1 :=
      Nat.le_antisymm (walk_le s _ a) hge
    have hall : ∀ k : Nat, k < s.card + 1 → a - (k : Int) ∈ s :=
      walk_eq_fuel s _ a heq
    have hsub : ∀ k ∈ Finset.range (s.card + 1), (fun k : Nat => a - (k : Int)) k ∈ s := by
      intro k hk
      exact hall k (Finset.mem_range.mp hk)
    have hinj : Set.InjOn (fun k : Nat => a - (k : Int)) ↑(Finset.range (s.card + 1)) := by
      intro i _ j _ hij
      have hcast : (i : Int) = (j : Int) := by
        simpa using hij
      exact_mod_cast hcast
    have hcard := Finset.card_le_card_of_injOn (fun k : Nat => a - (k : Int)) hsub hinj
    rw [Finset.card_range] at hcard
    omega

/-- The streak of a habit satisfies the backward-walk characterization:
every day among the first `streakOf` days counting back from the anchor is
credited, and the next day back is not. -/
lemma streakOf_spec (events : List HabitCompletionEvent) (today : Int) (h : String) :
    (∀ k : Nat, k < streakOf events today h →
      anchor (creditedDays events h) today - (k : Int) ∈ creditedDays events h)
    ∧ anchor (creditedDays events h) today - (streakOf events today h : Int)
        ∉ creditedDays events h :=
  walk_spec_of_lt (creditedDays events h) _ _
    (walk_lt_card (creditedDays events h) _)

/-- The backward-walk characterization determines the count uniquely. -/
lemma streak_unique (s : Finset Int) (a : Int) (m n : Nat)
    (hm1 : ∀ k : Nat, k < m → a - (k : Int) ∈ s) (hm2 : a - (m : Int) ∉ s)
    (hn1 : ∀ k : Nat, k < n → a - (k : Int) ∈ s) (hn2 : a - (n : Int) ∉ s) :
    m = n := by
  rcases Nat.lt_trichotomy m n with hlt | heq | hgt
  · exact absurd (hn1 m hlt) hm2
  · exact heq
  · exact absurd (hm1 n hgt) hn2

/-- Computation rule: if the first `n` days back from the anchor are
credited and day `n` back is not, the engine reports streak `n`. -/
lemma streakOf_eq (events : List HabitCompletionEvent) (today : Int) (h : String)
    (n : Nat)
    (h1 : ∀ k : Nat, k < n →
      anchor (creditedDays events h) today - (k : Int) ∈ creditedDays events h)
    (h2 : anchor (creditedDays events h) today - (n : Int) ∉ creditedDays events h) :
    streakOf events today h = n := by
  obtain ⟨g1, g2⟩ := streakOf_spec events today h
  exact streak_unique (creditedDays events h) _ _ n g1 g2 h1 h2

lemma mem_habitNames_iff (events : List HabitCompletionEvent) (h : String) :
    h ∈ habitNames events ↔ ∃ e ∈ events, e.completed = true ∧ e.habit = h := by
  unfold habitNames
  rw [List.mem_dedup]
  simp only [List.mem_map, List.mem_filter]
  constructor
  · rintro ⟨e, ⟨he, hc⟩, hh⟩
    exact ⟨e, he, hc, hh⟩
  · rintro ⟨e, he, hc, hh⟩
    exact ⟨e, ⟨he, hc⟩, hh⟩

lemma streaks_keys (events : List HabitCompletionEvent) (today : Int) :
    (streaks events today).map Prod.fst = habitNames events := by
  unfold streaks
  rw [List.map_map]
  have hcomp : (Prod.fst ∘ fun h => (h, streakOf events today h)) = id := rfl
  rw [hcomp, List.map_id]

lemma mem_streaks (events : List HabitCompletionEvent) (today : Int) (h : String)
    (hh : h ∈ habitNames events) :
    (h, streakOf events today h) ∈ streaks events today :=
  List.mem_map_of_mem _ hh

lemma mem_streaks_elim (events : List HabitCompletionEvent) (today : Int)
    (h : String) (n : Nat) (hmem : (h, n) ∈ streaks events today) :
    n = streakOf events today h := by
  unfold streaks at hmem
  rw [List.mem_map] at hmem
  obtain ⟨h0, _, heq⟩ := hmem
  rw [Prod.mk.injEq] at heq
  obtain ⟨h1, h2⟩ := heq
  rw [← h1]
  exact h2.symm

lemma mem_names_of_credited (events : List HabitCompletionEvent) (h : String)
    (d : Int) (hd : d ∈ creditedDays events h) : h ∈ habitNames events := by
  unfold creditedDays at hd
  rw [List.mem_toFinset, List.mem_map] at hd
  obtain ⟨e, he, _⟩ := hd
  rw [List.mem_filter] at he
  have hc := he.2
  rw [Bool.and_eq_true, beq_iff_eq] at hc
  rw [mem_habitNames_iff]
  exact ⟨e, he.1, hc.1, hc.2⟩

lemma one_le_streakOf (events : List HabitCompletionEvent) (today : Int)
    (h : String)
    (hmem : anchor (creditedDays events h) today ∈ creditedDays events h) :
    1 ≤ streakOf events today h := by
  unfold streakOf
  rw [walk_succ, if_pos hmem]
  omega

/-- C1: the engine returns exactly one result per habit holding at least one
completed event, and the reported count satisfies the backward-walk law:
anchoring at today when today is credited and at yesterday otherwise, the
first `n` days back from the anchor are credited and the next one is not
(so the count is 0 when the anchor itself is not credited). -/
theorem streaks_complete_characterization (events : List HabitCompletionEvent)
    (today : Int) (h : String) :
    (h ∈ (streaks events today).map Prod.fst ↔
      ∃ e ∈ events, e.completed = true ∧ e.habit = h)
    ∧ ((streaks events today).map Prod.fst).Nodup
    ∧ ∀ n : Nat, (h, n) ∈ streaks events today →
        (∀ k : Nat, k < n →
          (if today ∈ creditedDays events h then today else today - 1) - (k : Int)
            ∈ creditedDays events h)
        ∧ (if today ∈ creditedDays events h then today else today - 1) - (n : Int)
            ∉ creditedDays events h := by
  refine ⟨?_, ?_, ?_⟩
  · rw [streaks_keys]
    exact mem_habitNames_iff events h
  · rw [streaks_keys]
    unfold habitNames
    exact List.nodup_dedup _
  · intro n hmem
    have hn := mem_streaks_elim events today h n hmem
    subst hn
    have hspec := streakOf_spec events today h
    simpa [anchor] using hspec

/-- Concrete input used by several witnesses: one habit "read" completed on
day 3. -/
def eventsA : List HabitCompletionEvent := [⟨"read", true, 3, 0⟩]

/-- C1 witness: with one completion on day 3 evaluated on day 3 the entry
("read", 1) is in the result and day 3 (offset 0 from the anchor) is
credited. -/
theorem streaks_complete_characterization_witness :
    (if (3 : Int) ∈ creditedDays eventsA "read" then (3 : Int) else (3 : Int) - 1)
      - ((0 : Nat) : Int) ∈ creditedDays eventsA "read" :=
  ((streaks_complete_characterization eventsA 3 "read").2.2 1 (by decide)).1
    0 (by decide)

/-- Concrete input refuting C2 as stated: habit "run" completed on days 7,
8 and 9, evaluated on day 10. -/
def eventsC2 : List HabitCompletionEvent :=
  [⟨"run", true, 9, 0⟩, ⟨"run", true, 8, 0⟩, ⟨"run", true, 7, 0⟩]

/-- C2 counterexample: the credited set of "run" contains today-1 and
today-2 and not today (today = 10), yet the engine reports streak 3, not
exactly 2, because today-3 is also credited. -/
theorem grace_period_counterexample :
    ((10 : Int) - 1 ∈ creditedDays eventsC2 "run")
    ∧ ((10 : Int) - 2 ∈ creditedDays eventsC2 "run")
    ∧ ((10 : Int) ∉ creditedDays eventsC2 "run")
    ∧ streaks eventsC2 10 = [("run", 3)] := by decide

/-- C2 amended: when yesterday is credited and today is not, the streak is
at least 1 (a missing completion today alone never resets to 0); and when
additionally today-2 is credited and today-3 is not, the streak is
exactly 2. -/
theorem grace_period_amended (events : List HabitCompletionEvent)
    (today : Int) (h : String)
    (h1 : today - 1 ∈ creditedDays events h)
    (h0 : today ∉ creditedDays events h) :
    1 ≤ streakOf events today h
    ∧ (today - 2 ∈ creditedDays events h → today - 3 ∉ creditedDays events h →
        streakOf events today h = 2 ∧ (h, 2) ∈ streaks events today) := by
  have ha : anchor (creditedDays events h) today = today - 1 := by
    unfold anchor
    rw [if_neg h0]
  constructor
  · apply one_le_streakOf
    rw [ha]
    exact h1
  · intro h2 h3
    have hstreak : streakOf events today h = 2 := by
      apply streakOf_eq
      · intro k hk
        rw [ha]
        have hk2 : k = 0 ∨ k = 1 := by omega
        rcases hk2 with rfl | rfl
        · simpa using h1
        · have he : today - 1 - ((1 : Nat) : Int) = today - 2 := by
            push_cast
            ring
          rw [he]
          exact h2
      · rw [ha]
        have he : today - 1 - ((2 : Nat) : Int) = today - 3 := by
          push_cast
          ring
        rw [he]
        exact h3
    refine ⟨hstreak, ?_⟩
    have hn := mem_names_of_credited events h (today - 1) h1
    have hmem := mem_streaks events today h hn
    rwa [hstreak] at hmem

/-- C2 amended witness: for "run" credited on days 8 and 9 with today = 10
the amended statement gives streak exactly 2. -/
theorem grace_period_amended_witness :
    streakOf [⟨"run", true, 9, 0⟩, ⟨"run", true, 8, 0⟩] 10 "run" = 2
    ∧ ("run", 2) ∈ streaks [⟨"run", true, 9, 0⟩, ⟨"run", true, 8, 0⟩] 10 :=
  (grace_period_amended [⟨"run", true, 9, 0⟩, ⟨"run", true, 8, 0⟩] 10 "run"
    (by decide) (by decide)).2 (by decide) (by decide)

/-- C3: a credited today with a gap yesterday gives streak exactly 1,
whatever happened before the gap. -/
theorem gap_reset (events : List HabitCompletionEvent) (today : Int)
    (h : String)
    (ht : today ∈ creditedDays events h)
    (_h2 : today - 2 ∈ creditedDays events h)
    (h1 : today - 1 ∉ creditedDays events h) :
    streakOf events today h = 1 ∧ (h, 1) ∈ streaks events today := by
  have ha : anchor (creditedDays events h) today = today := by
    unfold anchor
    rw [if_pos ht]
  have hstreak : streakOf events today h = 1 := by
    apply streakOf_eq
    · intro k hk
      have hk0 : k = 0 := by omega
      subst hk0
      rw [ha]
      simpa using ht
    · rw [ha]
      have he : today - ((1 : Nat) : Int) = today - 1 := by
        push_cast
        ring
      rw [he]
      exact h1
  refine ⟨hstreak, ?_⟩
  have hn := mem_names_of_credited events h today ht
  have hmem := mem_streaks events today h hn
  rwa [hstreak] at hmem

/-- C3 witness: "run" credited on days 10 and 8 with today = 10 yields
streak exactly 1. -/
theorem gap_reset_witness :
    streakOf [⟨"run", true, 10, 0⟩, ⟨"run", true, 8, 0⟩] 10 "run" = 1
    ∧ ("run", 1) ∈ streaks [⟨"run", true, 10, 0⟩, ⟨"run", true, 8, 0⟩] 10 :=
  gap_reset [⟨"run", true, 10, 0⟩, ⟨"run", true, 8, 0⟩] 10 "run"
    (by decide) (by decide) (by decide)

/-- C4: adding a further completed event for a habit on a calendar day that
already carries a completed event for that habit leaves the whole result
unchanged, for any evaluation date. -/
theorem same_day_dedup (events : List HabitCompletionEvent) (today : Int)
    (h : String) (d : Int) (t : Nat)
    (hex : ∃ e ∈ events, e.habit = h ∧ e.completed = true ∧ e.day = d) :
    streaks (⟨h, true, d, t⟩ :: events) today = streaks events today := by
  obtain ⟨e0, he0, hh0, hc0, hd0⟩ := hex
  have hnames : habitNames (⟨h, true, d, t⟩ :: events) = habitNames events := by
    unfold habitNames
    rw [List.filter_cons_of_pos (by simp), List.map_cons]
    apply List.dedup_cons_of_mem
    rw [List.mem_map]
    exact ⟨e0, List.mem_filter.mpr ⟨he0, hc0⟩, hh0⟩
  have hcred : ∀ h' : String,
      creditedDays (⟨h, true, d, t⟩ :: events) h' = creditedDays events h' := by
    intro h'
    unfold creditedDays
    by_cases hh' : h = h'
    · subst hh'
      rw [List.filter_cons_of_pos (by simp), List.map_cons, List.toFinset_cons]
      apply Finset.insert_eq_self.mpr
      rw [List.mem_toFinset, List.mem_map]
      refine ⟨e0, List.mem_filter.mpr ⟨he0, ?_⟩, hd0⟩
      rw [Bool.and_eq_true, beq_iff_eq]
      exact ⟨hc0, hh0⟩
    · rw [List.filter_cons_of_neg (by simp [hh'])]
  have hfun : (fun h' => (h', streakOf (⟨h, true, d, t⟩ :: events) today h'))
      = fun h' => (h', streakOf events today h') := by
    funext h'
    unfold streakOf
    rw [hcred h']
  unfold streaks
  rw [hnames, hfun]

/-- C4 witness: two completions of "h" on day 1 (times 9 and 18) yield the
same result as the single completion, evaluated on day 1. -/
theorem same_day_dedup_witness :
    streaks [⟨"h", true, 1, 9⟩, ⟨"h", true, 1, 18⟩] 1
      = streaks [⟨"h", true, 1, 18⟩] 1 :=
  same_day_dedup [⟨"h", true, 1, 18⟩] 1 "h" 1 9
    ⟨⟨"h", true, 1, 18⟩, by decide, by decide, by decide, by decide⟩

/-- C5: a habit name all of whose events carry completed = false appears
nowhere in the result, not even with streak 0. -/
theorem no_completion_absent (events : List HabitCompletionEvent)
    (today : Int) (h : String)
    (hall : ∀ e ∈ events, e.habit = h → e.completed = false) :
    h ∉ (streaks events today).map Prod.fst := by
  rw [streaks_keys, mem_habitNames_iff]
  rintro ⟨e, he, hc, hh⟩
  have hf := hall e he hh
  rw [hf] at hc
  exact Bool.false_ne_true hc

/-- C5 witness: a habit logged only as not completed is absent from the
result. -/
theorem no_completion_absent_witness :
    "h" ∉ (streaks [⟨"h", false, 1, 0⟩] 1).map Prod.fst :=
  no_completion_absent [⟨"h", false, 1, 0⟩] 1 "h" (by decide)

/-- C6: on an empty event history the engine returns the empty result for
every evaluation date, and every per-habit streak is 0; being a plain
function of its two arguments it has no error outcome. -/
theorem empty_events_empty_result (today : Int) :
    streaks [] today = [] ∧ ∀ h : String, streakOf [] today h = 0 := by
  constructor
  · rfl
  · intro h
    rfl

/-- Modelled from the spec: an invocation whose evaluation date is read
from a clock at call time (section 6: the date is an implicit input that
implementations must surface as a parameter). -/
def streaksClocked (events : List HabitCompletionEvent)
    (clock : Unit → Int) : List (String × Nat) :=
  streaks events (clock ())

/-- C7: two engine invocations whose clocks read the same evaluation date
return identical results: the output depends only on the event snapshot and
the date, not on the invocation. -/
theorem engine_deterministic (events : List HabitCompletionEvent)
    (clock1 clock2 : Unit → Int) (hsame : clock1 () = clock2 ()) :
    streaksClocked events clock1 = streaksClocked events clock2 := by
  unfold streaksClocked
  rw [hsame]

/-- C7 witness: two syntactically different clocks reading date 1 give the
same result on a one-event history. -/
theorem engine_deterministic_witness :
    streaksClocked [⟨"read", true, 1, 0⟩] (fun _ => 1)
      = streaksClocked [⟨"read", true, 1, 0⟩] (fun _ => 2 - 1) :=
  engine_deterministic [⟨"read", true, 1, 0⟩] (fun _ => 1) (fun _ => 2 - 1)
    (by decide)

end Nymph
